import Mathlib

/-!
Shallow embedding of the `rrulex-core` recurrence engine
(`crates/rrulex-core/src/lib.rs`) for checking its natural-language
specification.

Instants are UNIX-second timestamps modelled as `Int`.  The engine's
external dependencies (the `rrule` crate for recurrence-set iteration and
`chrono`/`chrono-tz` for calendars and timezones) are not part of the
repository; definitions that stand in for them carry a doc comment
starting with `Modelled from the spec:` and follow the specification's
description of their behaviour.  Everything else is translated directly
from the Rust source.
-/

namespace Rrulex

/-- DATE vs DATE-TIME value kind (`DateValueType` in lib.rs). -/
inductive DateValueType
  | date
  | dateTime
deriving DecidableEq, Repr

/-- Source tag of an occurrence (`OccurrenceSource` in lib.rs). -/
inductive OccurrenceSource
  | rrule
  | rdate
deriving DecidableEq, Repr

/-- Error kinds (`CoreError` in lib.rs).  Payloads kept where claims need
them. -/
inductive CoreError
  | invalidTimezone (tz : String)
  | invalidDateTime (input : String) (reason : String)
  | invalidRrule (rule : String) (reason : String)
  | missingField (field : String)
  | invalidIcs (msg : String)
  | limitExceeded (limit : Nat)
  | invalidLimit (limit : Nat)
  | invalidCount (count : Nat)
  | unsafeUnboundedRule
deriving DecidableEq, Repr

/-- An expansion query (`ExpandQuery` in lib.rs).  `between` carries the
inclusive window bounds, `after` the pivot instant and requested count. -/
inductive ExpandQuery
  | between (start : Int) (stop : Int)
  | after (start : Int) (count : Nat)
  | unbounded
deriving DecidableEq, Repr

/-- An emitted occurrence (`Occurrence` in lib.rs): rendered local and UTC
strings, echoed zone name, source tag and rule index. -/
structure Occurrence where
  start_local : String
  start_utc : String
  tz : String
  source : OccurrenceSource
  rule_index : Nat
deriving DecidableEq, Repr

/-- Result of `explain` (`ExplainResult` in lib.rs); the `at` field is
rendered `atLocal` here because `at` is a Lean keyword. -/
structure ExplainResult where
  atLocal : String
  included : Bool
  generated_by : Option OccurrenceSource
  generated_rule_index : Option Nat
  excluded_by : Option String
  notes : List String
deriving DecidableEq, Repr

/-- A lint finding (`Finding` in lib.rs). -/
structure Finding where
  code : String
  message : String
  details : Option String
deriving DecidableEq, Repr

/-- Lint findings grouped by severity (`Findings` in lib.rs). -/
structure Findings where
  errors : List Finding
  warnings : List Finding
  hints : List Finding
deriving DecidableEq, Repr

/-! ## Calendar arithmetic and rendering

The Rust engine renders instants with chrono's `%Y-%m-%dT%H:%M:%S`
formatter over the proleptic Gregorian calendar.  The functions below
implement that calendar (days-to-civil and back) so rendering is
executable. -/

/-- Civil date from a count of days since 1970-01-01 (proleptic Gregorian,
the calendar chrono uses).  Returns `(year, month, day)`. -/
def civilFromDays (z0 : Int) : Int × Nat × Nat :=
  let z := z0 + 719468
  let era : Int := (if 0 ≤ z then z else z - 146096) / 146097
  let doe : Int := z - era * 146097
  let yoe : Int := (doe - doe / 1460 + doe / 36524 - doe / 146096) / 365
  let y : Int := yoe + era * 400
  let doy : Int := doe - (365 * yoe + yoe / 4 - yoe / 100)
  let mp : Int := (5 * doy + 2) / 153
  let d : Int := doy - (153 * mp + 2) / 5 + 1
  let m : Int := if mp < 10 then mp + 3 else mp - 9
  (if m ≤ 2 then y + 1 else y, m.toNat, d.toNat)

/-- Days since 1970-01-01 of a civil date (proleptic Gregorian). -/
def daysFromCivil (y0 : Int) (m d : Nat) : Int :=
  let y : Int := if m ≤ 2 then y0 - 1 else y0
  let era : Int := (if 0 ≤ y then y else y - 399) / 400
  let yoe : Int := y - era * 400
  let mp : Int := if 2 < m then (m : Int) - 3 else (m : Int) + 9
  let doy : Int := (153 * mp + 2) / 5 + (d : Int) - 1
  let doe : Int := yoe * 365 + yoe / 4 - yoe / 100 + doy
  era * 146097 + doe - 719468

/-- Left-pads the decimal rendering of `n` with zeros to width 2. -/
def pad2 (n : Nat) : String :=
  if n < 10 then "0" ++ toString n else toString n

/-- Left-pads the decimal rendering of `n` with zeros to width 4 (chrono's
`%Y` for the years the engine meets). -/
def pad4 (n : Int) : String :=
  if n < 0 then "-" ++ toString (-n)
  else if n < 10 then "000" ++ toString n
  else if n < 100 then "00" ++ toString n
  else if n < 1000 then "0" ++ toString n
  else toString n

/-- Renders a second count (interpreted as a wall-clock in some frame) as
`YYYY-MM-DDTHH:MM:SS`, chrono's `%Y-%m-%dT%H:%M:%S`. -/
def formatSecs (t : Int) : String :=
  let days := t.ediv 86400
  let sod := (t.emod 86400).toNat
  let ymd := civilFromDays days
  pad4 ymd.1 ++ "-" ++ pad2 ymd.2.1 ++ "-" ++ pad2 ymd.2.2 ++ "T" ++
    pad2 (sod / 3600) ++ ":" ++ pad2 (sod % 3600 / 60) ++ ":" ++ pad2 (sod % 60)

/-! ## Timezone model -/

/-- Modelled from the spec: an IANA timezone (resolved by the external
`chrono-tz` crate) as a piecewise-constant UTC-offset function — a base
offset in seconds and an ascending list of `(transition instant, new
offset)` pairs.  `rrulex` consumes zones only through the instant-to-offset
map and local-time resolution modelled below (spec section 4.1). -/
structure TzM where
  base : Int
  transitions : List (Int × Int)
deriving DecidableEq, Repr

/-- UTC offset (seconds east) in force at instant `t`. -/
def TzM.offsetAt (tz : TzM) (t : Int) : Int :=
  tz.transitions.foldl (fun acc tr => if tr.1 ≤ t then tr.2 else acc) tz.base

/-- All offsets the zone can assume. -/
def TzM.offsets (tz : TzM) : List Int :=
  (tz.base :: tz.transitions.map Prod.snd).dedup

/-- Local wall-clock seconds of instant `t` in the zone: what chrono's
`with_timezone` plus naive formatting exposes. -/
def TzM.localOf (tz : TzM) (t : Int) : Int :=
  t + tz.offsetAt t

/-- Modelled from the spec: the instants whose local wall-clock in the
zone equals `L` — chrono-tz's `from_local_datetime` candidate set.  Empty
for a nonexistent (spring-forward) local time, two elements for an
ambiguous (fall-back) one. -/
def TzM.localCandidates (tz : TzM) (L : Int) : List Int :=
  (tz.offsets.filterMap fun o =>
    let u := L - o
    if tz.offsetAt u = o then some u else none).dedup

/-- Modelled from the spec: chrono's `LocalResult::single` — the unique
instant with local wall-clock `L`, or `none` when the local time is
ambiguous or nonexistent. -/
def TzM.single (tz : TzM) (L : Int) : Option Int :=
  match tz.localCandidates L with
  | [u] => some u
  | _ => none

/-- `localize` from lib.rs: resolve a naive local wall-clock into the zone,
failing when it is ambiguous or nonexistent. -/
def localize (tz : TzM) (L : Int) (input : String) : Except CoreError Int :=
  match tz.single L with
  | some u => Except.ok u
  | none =>
      Except.error (CoreError.invalidDateTime input
        "ambiguous or invalid local time in timezone")

/-! ## Datetime string parsing

`parse_iso_datetime` delegates its three accepted forms to chrono parsers.
The chrono crate is external, so the three form parsers are modelled here:
fixed-width `YYYY-MM-DD`, `YYYY-MM-DDTHH:MM:SS` and RFC 3339 with an
explicit offset, exactly the forms the spec lists (section 4.1). -/

/-- Numeric value of a decimal digit character. -/
def digitVal (c : Char) : Nat := c.toNat - 48

/-- True for years with 366 days in the proleptic Gregorian calendar. -/
def isLeapYear (y : Int) : Bool := (y % 4 == 0 && y % 100 != 0) || y % 400 == 0

/-- Day count of a month (1-12) in year `y`. -/
def daysInMonth (y : Int) (m : Nat) : Nat :=
  if m = 2 then (if isLeapYear y then 29 else 28)
  else if m = 4 || m = 6 || m = 9 || m = 11 then 30
  else 31

/-- Modelled from the spec: chrono's `NaiveDate::parse_from_str` with
format `%Y-%m-%d` on a whole string — `YYYY-MM-DD` with a four-digit year
and a valid calendar date.  Returns days since 1970-01-01. -/
def parseDateChars : List Char → Option Int
  | [a, b, c, d, '-', e, f, '-', g, h] =>
      if [a, b, c, d, e, f, g, h].all Char.isDigit then
        let y : Int := ((digitVal a * 10 + digitVal b) * 10 + digitVal c) * 10 + digitVal d
        let m := digitVal e * 10 + digitVal f
        let dd := digitVal g * 10 + digitVal h
        if 1 ≤ m && m ≤ 12 && 1 ≤ dd && dd ≤ daysInMonth y m then
          some (daysFromCivil y m dd)
        else none
      else none
  | _ => none

/-- Modelled from the spec: chrono's `%H:%M:%S` time-of-day parse on an
eight-character slice.  Returns seconds of day. -/
def parseTimeChars : List Char → Option Nat
  | [a, b, ':', c, d, ':', e, f] =>
      if [a, b, c, d, e, f].all Char.isDigit then
        let hh := digitVal a * 10 + digitVal b
        let mm := digitVal c * 10 + digitVal d
        let ss := digitVal e * 10 + digitVal f
        if hh ≤ 23 && mm ≤ 59 && ss ≤ 59 then some (hh * 3600 + mm * 60 + ss)
        else none
      else none
  | _ => none

/-- Modelled from the spec: chrono's `NaiveDateTime::parse_from_str` with
format `%Y-%m-%dT%H:%M:%S` on a whole string.  Returns naive seconds since
the epoch of the calendar frame. -/
def parseNaiveDTChars (cs : List Char) : Option Int :=
  match parseDateChars (cs.take 10), cs.drop 10 with
  | some days, 'T' :: rest => (parseTimeChars rest).map fun sod => days * 86400 + (sod : Int)
  | _, _ => none

/-- Drops an RFC 3339 fractional-second part (`.` followed by at least one
digit); anything else is passed through unchanged. -/
def dropFrac : List Char → List Char
  | '.' :: rest =>
      if (rest.takeWhile Char.isDigit).isEmpty then '.' :: rest
      else rest.dropWhile Char.isDigit
  | cs => cs

/-- Modelled from the spec: an RFC 3339 numeric offset suffix (`Z` or
`±HH:MM`), in seconds east of UTC. -/
def parseOffsetSuffix : List Char → Option Int
  | ['Z'] => some 0
  | ['z'] => some 0
  | [sg, a, b, ':', c, d] =>
      if (sg = '+' || sg = '-') && [a, b, c, d].all Char.isDigit then
        let hh := digitVal a * 10 + digitVal b
        let mm := digitVal c * 10 + digitVal d
        if hh ≤ 23 && mm ≤ 59 then
          let off : Int := hh * 3600 + mm * 60
          some (if sg = '-' then -off else off)
        else none
      else none
  | _ => none

/-- Modelled from the spec: chrono's `DateTime::parse_from_rfc3339` — date,
`T` (or `t`) separator, time, optional fraction, and a mandatory explicit
offset.  Returns the absolute instant in UNIX seconds (fraction truncated,
as the engine only consumes whole seconds). -/
def parseRfc3339 (s : String) : Option Int :=
  let cs := s.data
  match parseDateChars (cs.take 10), cs.drop 10 with
  | some days, sep :: rest =>
      if sep = 'T' || sep = 't' then
        match parseTimeChars (rest.take 8) with
        | some sod =>
            (parseOffsetSuffix (dropFrac (rest.drop 8))).map fun off =>
              days * 86400 + (sod : Int) - off
        | none => none
      else none
  | _, _ => none

/-- `parse_iso_datetime` from lib.rs: tries `YYYY-MM-DD` (midnight local,
kind DATE), then RFC 3339 with explicit offset (absolute instant, kind
DATE-TIME), then `YYYY-MM-DDTHH:MM:SS` (local wall time, kind DATE-TIME);
otherwise fails with `InvalidDateTime`. -/
def parse_iso_datetime (value : String) (tz : TzM) :
    Except CoreError (Int × DateValueType) :=
  match parseDateChars value.data with
  | some days =>
      match localize tz (days * 86400) value with
      | Except.ok dt => Except.ok (dt, DateValueType.date)
      | Except.error e => Except.error e
  | none =>
    match parseRfc3339 value with
    | some t => Except.ok (t, DateValueType.dateTime)
    | none =>
      match parseNaiveDTChars value.data with
      | some localSecs =>
          match localize tz localSecs value with
          | Except.ok dt => Except.ok (dt, DateValueType.dateTime)
          | Except.error e => Except.error e
      | none =>
          Except.error (CoreError.invalidDateTime value
            "expected YYYY-MM-DD, YYYY-MM-DDTHH:MM:SS, or RFC3339")

/-! ## Rules, specs and the combined recurrence set

The engine parses rule strings through the external `rrule` crate
(`parse_validated_rule`) and then consumes validated rules only through
set iteration and single-rule probes.  A validated rule is therefore
modelled by its raw string (which the linter reads) together with the set
of instants the rule, anchored at DTSTART, produces. -/

/-- Modelled from the spec: a rule string as validated by the external
`rrule` crate against DTSTART, together with the occurrence set the
validated rule produces (spec section 4.4).  Occurrence sets are finite
lists here; every engine query materializes at most a `u16`-bounded number
of instants. -/
structure RuleM where
  raw : String
  occs : List Int
deriving DecidableEq, Repr

/-- Whether the rule alone (with DTSTART, no exclusions) produces `t`. -/
def RuleM.occurs (r : RuleM) (t : Int) : Bool := r.occs.contains t

/-- `RecurrenceSpec` from lib.rs.  The Rust field `tz : String` is split
into the name `tzName` and, modelled from the spec, the zone `tzZone` that
`parse_timezone` resolves it to (resolution by the external `chrono-tz`
crate; theorems quantify over specs whose zone resolves, as the claims
assume valid specs). -/
structure RecurrenceSpec where
  dtstart : Int
  dtstart_type : DateValueType
  tzName : String
  tzZone : TzM
  rrules : List RuleM
  rdates : List Int
  exrules : List RuleM
  exdates : List Int
deriving DecidableEq, Repr

/-- The combined rule set `expand` assembles (lib.rs lines 372-380):
DTSTART, RRULEs, EXRULEs, RDATEs, EXDATEs. -/
structure RRuleSetM where
  dtstart : Int
  rrules : List RuleM
  rdates : List Int
  exrules : List RuleM
  exdates : List Int
deriving DecidableEq, Repr

/-- Builds the combined set from a spec exactly as `expand` does. -/
def buildSet (spec : RecurrenceSpec) : RRuleSetM :=
  { dtstart := spec.dtstart
    rrules := spec.rrules
    rdates := spec.rdates
    exrules := spec.exrules
    exdates := spec.exdates }

/-- Modelled from the spec: the instants the inclusion side of the set
produces — the union of every RRULE occurrence set with the RDATEs,
ascending and without duplicates (spec section 4.4 step 2; overlapping
sources emit an instant once). -/
def RRuleSetM.generated (s : RRuleSetM) : List Int :=
  (List.insertionSort (· ≤ ·) (s.rrules.flatMap RuleM.occs ++ s.rdates)).dedup

/-- Modelled from the spec: whether instant `t` is removed by an EXDATE
with the same UNIX-second timestamp or by some EXRULE that produces it. -/
def RRuleSetM.excludedAt (s : RRuleSetM) (t : Int) : Bool :=
  s.exdates.contains t || s.exrules.any fun r => r.occurs t

/-- Modelled from the spec: the instants of the recurrence set — inclusions
minus exclusions, ascending (spec section 4.4 step 2). -/
def RRuleSetM.instants (s : RRuleSetM) : List Int :=
  s.generated.filter fun t => !s.excludedAt t

/-- Modelled from the spec: the set's instants within the inclusive window
`[start, stop]` — what `set.after(start).before(stop)` restricts iteration
to for a Between query (spec section 3: inclusive on both endpoints). -/
def RRuleSetM.betweenWindow (s : RRuleSetM) (start stop : Int) : List Int :=
  s.instants.filter fun t => start ≤ t && t ≤ stop

/-- Modelled from the spec: the set's instants strictly after `start` —
what `set.after(start)` restricts iteration to for an After query (spec
section 4.4: strictly `>` start). -/
def RRuleSetM.afterStream (s : RRuleSetM) (start : Int) : List Int :=
  s.instants.filter fun t => start < t

/-- Largest `usize` value on the 64-bit targets the crate builds for. -/
def usizeMax : Nat := 2 ^ 64 - 1

/-- Largest `u16` value, the bound of the crate's `all(limit)` argument. -/
def u16Max : Nat := 65535

/-- `collect_dates` from lib.rs: computes `hard_limit + 1` with a checked
add, narrows it to `u16`, then runs the query — Between takes up to
`hard_limit + 1` instants of the inclusive window and fails when more than
`hard_limit` arrive; After validates `count` and takes the first `count`
instants strictly after the pivot; Unbounded takes `hard_limit` instants. -/
def collect_dates (set : RRuleSetM) (query : ExpandQuery) (hard_limit : Nat) :
    Except CoreError (List Int) :=
  if usizeMax < hard_limit + 1 then Except.error (CoreError.limitExceeded hard_limit)
  else if u16Max < hard_limit + 1 then Except.error (CoreError.limitExceeded hard_limit)
  else
    match query with
    | ExpandQuery.between start stop =>
        let dates := (set.betweenWindow start stop).take (hard_limit + 1)
        if hard_limit < dates.length then Except.error (CoreError.limitExceeded hard_limit)
        else Except.ok dates
    | ExpandQuery.after start count =>
        if count = 0 then Except.error (CoreError.invalidCount count)
        else if hard_limit < count then Except.error (CoreError.limitExceeded hard_limit)
        else if u16Max < count then Except.error (CoreError.limitExceeded hard_limit)
        else Except.ok ((set.afterStream start).take count)
    | ExpandQuery.unbounded =>
        if u16Max < hard_limit then Except.error (CoreError.limitExceeded hard_limit)
        else Except.ok (set.instants.take hard_limit)

/-- Modelled from the spec: `matches_rule_at` from lib.rs — whether the
single rule alone, anchored at `dtstart` with no exclusions, would produce
the instant (the crate probe over the window `[t, t]`). -/
def matches_rule_at (dtstart : Int) (rule : RuleM) (t : Int) : Bool :=
  let _ := dtstart
  rule.occurs t

/-- Modelled from the spec: `matches_exrule_at` from lib.rs — whether the
single exclusion rule would produce the instant (spec section 4.5 step 4,
the EXRULE single-rule probe). -/
def matches_exrule_at (dtstart : Int) (rule : RuleM) (t : Int) : Bool :=
  let _ := dtstart
  rule.occurs t

/-- The RDATE timestamp index `expand` and `explain` build: a map from
UNIX-second timestamp to position in `spec.rdates`, later entries
overwriting earlier ones as in the Rust `HashMap` collect. -/
def rdate_index : List Int → Int → Option Nat
  | [], _ => none
  | d :: rest, ts =>
      match rdate_index rest ts with
      | some i => some (i + 1)
      | none => if d = ts then some 0 else none

/-- The source classification step of `expand` (lib.rs lines 396-407): an
RDATE timestamp match wins and reports that RDATE's index; otherwise the
first RRULE whose single-rule probe matches, defaulting to index 0. -/
def classify (spec : RecurrenceSpec) (t : Int) : OccurrenceSource × Nat :=
  match rdate_index spec.rdates t with
  | some index => (OccurrenceSource.rdate, index)
  | none =>
      let found := spec.rrules.findIdx? fun rule => matches_rule_at spec.dtstart rule t
      (OccurrenceSource.rrule, found.getD 0)

/-- The rendering step of `expand` (lib.rs lines 409-418): local and UTC
wall-clock strings of the instant plus its classification. -/
def renderOccurrence (spec : RecurrenceSpec) (t : Int) : Occurrence :=
  let sr := classify spec t
  { start_local := formatSecs (spec.tzZone.localOf t)
    start_utc := formatSecs t ++ "Z"
    tz := spec.tzName
    source := sr.1
    rule_index := sr.2 }

/-- Lexicographic-by-codepoint strict comparison of character lists: the
order Rust's `str` comparison (byte lexicographic) induces on the ASCII
strings the renderer emits. -/
def listLtB : List Char → List Char → Bool
  | [], [] => false
  | [], _ :: _ => true
  | _ :: _, [] => false
  | a :: as, b :: bs =>
      if a.toNat < b.toNat then true
      else if a.toNat = b.toNat then listLtB as bs
      else false

/-- Strict lexicographic order on rendered strings, as `String::cmp`
compares them in the Rust comparator. -/
def strLt (a b : String) : Prop := listLtB a.data b.data = true

instance : DecidableRel strLt :=
  fun a b => inferInstanceAs (Decidable (_ = true))

/-- The comparator of the final `sort_by` in `expand` (lib.rs lines
421-426): `start_utc.cmp.then_with(start_local.cmp).then_with
(rule_index.cmp)`, i.e. `≤` of the lexicographic triple. -/
def occLe (o1 o2 : Occurrence) : Prop :=
  strLt o1.start_utc o2.start_utc ∨
    (o1.start_utc = o2.start_utc ∧
      (strLt o1.start_local o2.start_local ∨
        (o1.start_local = o2.start_local ∧ o1.rule_index ≤ o2.rule_index)))

instance : DecidableRel occLe := fun o1 o2 => by
  unfold occLe
  infer_instance

/-- The final sorting step of `expand` (lib.rs lines 421-426); Rust's
stable `sort_by` is modelled by insertion sort under the comparator. -/
def sortOccs (l : List Occurrence) : List Occurrence :=
  List.insertionSort occLe l

/-- `expand` from lib.rs: reject `hard_limit = 0`, build the combined set,
collect dates for the query, classify and render each date, and sort. -/
def expand (spec : RecurrenceSpec) (query : ExpandQuery) (hard_limit : Nat) :
    Except CoreError (List Occurrence) :=
  if hard_limit = 0 then Except.error (CoreError.invalidLimit hard_limit)
  else
    match collect_dates (buildSet spec) query hard_limit with
    | Except.error e => Except.error e
    | Except.ok dates => Except.ok (sortOccs (dates.map (renderOccurrence spec)))

/-- The generated-by computation of `explain` (lib.rs lines 492-506): an
RDATE timestamp match wins, otherwise the first RRULE whose single-rule
probe matches, otherwise nothing. -/
def explainGen (spec : RecurrenceSpec) (t : Int) : Option (OccurrenceSource × Nat) :=
  match rdate_index spec.rdates t with
  | some idx => some (OccurrenceSource.rdate, idx)
  | none =>
      (spec.rrules.findIdx? fun rule => matches_rule_at spec.dtstart rule t).map
        fun idx => (OccurrenceSource.rrule, idx)

/-- `explain` from lib.rs: classify the instant by RDATE timestamp match or
first matching RRULE probe, compute EXDATE/EXRULE hits, and derive
`excluded_by` (EXDATE taking precedence), `included`, and the notes. -/
def explain (spec : RecurrenceSpec) (t : Int) : ExplainResult :=
  let at_ts := t
  let exdate_hit := spec.exdates.any fun d => d == at_ts
  let genPair : Option (OccurrenceSource × Nat) := explainGen spec at_ts
  let exrule_hit := spec.exrules.any fun rule => matches_exrule_at spec.dtstart rule t
  let excluded_by : Option String :=
    if exdate_hit then some "EXDATE"
    else if exrule_hit then some "EXRULE"
    else none
  let included := genPair.isSome && excluded_by.isNone
  let genNote :=
    match genPair with
    | some (OccurrenceSource.rrule, _) => "Generated by RRULE"
    | some (OccurrenceSource.rdate, _) => "Generated by RDATE"
    | none => "Not generated by RRULE/RDATE"
  let notes :=
    match excluded_by with
    | some e => [genNote, "Excluded by " ++ e]
    | none => [genNote]
  { atLocal := formatSecs (spec.tzZone.localOf t)
    included := included
    generated_by := genPair.map Prod.fst
    generated_rule_index := genPair.map Prod.snd
    excluded_by := excluded_by
    notes := notes }

/-! ## Linter -/

/-- Splits a rule-string part at its first `=`, as Rust's `split_once`. -/
def splitOnceEq (part : String) : Option (String × String) :=
  match part.splitOn "=" with
  | [] => none
  | [_] => none
  | k :: rest => some (k, String.intercalate "=" rest)

/-- `parse_rule_fields` from lib.rs: split on `;`, then on the first `=`,
trim both sides and upper-case the key.  The insertion-ordered pairs are
kept; lookups take the last occurrence of a key, like the Rust `HashMap`
collect. -/
def parse_rule_fields (rule : String) : List (String × String) :=
  (rule.splitOn ";").filterMap fun part =>
    (splitOnceEq part).map fun kv => (kv.1.trim.toUpper, kv.2.trim)

/-- Field lookup with the Rust `HashMap` last-insert-wins semantics. -/
def fieldsGet (fields : List (String × String)) (key : String) : Option String :=
  ((fields.filter fun kv => kv.1 == key).getLast?).map Prod.snd

/-- The per-rule body of the `lint` loop (lib.rs lines 272-349): E001 on
UNTIL/DTSTART value-type mismatch, W001 on floating DATE-TIME UNTIL, W002
on a potentially unbounded rule without query context, W003 on BYSETPOS
without a BYxxx anchor. -/
def lintRule (dtType : DateValueType) (has_between has_limit : Bool)
    (rule : String) : Findings :=
  let fields := parse_rule_fields rule
  let untilFindings : List Finding × List Finding :=
    match fieldsGet fields "UNTIL" with
    | some untilVal =>
        let until_is_date := untilVal.length == 8 && untilVal.data.all Char.isDigit
        let until_is_datetime := untilVal.contains 'T'
        let e1 : List Finding :=
          if dtType == DateValueType.date && until_is_datetime then
            [{ code := "E001"
               message := "UNTIL value type must match DTSTART"
               details := some "DTSTART is DATE but UNTIL is DATE-TIME. Use UNTIL=YYYYMMDD." }]
          else []
        let e2 : List Finding :=
          if dtType == DateValueType.dateTime && until_is_date then
            [{ code := "E001"
               message := "UNTIL value type must match DTSTART"
               details := some "DTSTART is DATE-TIME but UNTIL is DATE. Use UNTIL=YYYYMMDDTHHMMSS(Z)." }]
          else []
        let w1 : List Finding :=
          if until_is_datetime && !untilVal.endsWith "Z" then
            [{ code := "W001"
               message := "UNTIL appears as local/floating time"
               details := some "Prefer UNTIL with Z (UTC) to avoid timezone ambiguity across systems." }]
          else []
        (e1 ++ e2, w1)
    | none => ([], [])
  let has_count := (fieldsGet fields "COUNT").isSome
  let has_until := (fieldsGet fields "UNTIL").isSome
  let w2 : List Finding :=
    if !has_count && !has_until && !has_between && !has_limit then
      [{ code := "W002"
         message := "Potentially unbounded rule"
         details := some "No COUNT/UNTIL and no --between/--limit context was provided." }]
    else []
  let w3 : List Finding :=
    if (fieldsGet fields "BYSETPOS").isSome then
      let has_context :=
        ["BYMONTH", "BYWEEKNO", "BYYEARDAY", "BYMONTHDAY", "BYDAY", "BYHOUR",
          "BYMINUTE", "BYSECOND"].any fun key => (fieldsGet fields key).isSome
      if !has_context then
        [{ code := "W003"
           message := "BYSETPOS without BYxxx context"
           details := some "BYSETPOS is typically only meaningful with BYDAY/BYMONTHDAY/etc." }]
      else []
    else []
  { errors := untilFindings.1
    warnings := untilFindings.2 ++ w2 ++ w3
    hints := [] }

/-- One iteration of the `lint` loop: append the findings for one rule. -/
def lintStep (dtType : DateValueType) (has_between has_limit : Bool)
    (acc : Findings) (r : RuleM) : Findings :=
  let f := lintRule dtType has_between has_limit r.raw
  { errors := acc.errors ++ f.errors
    warnings := acc.warnings ++ f.warnings
    hints := acc.hints ++ f.hints }

/-- `lint` from lib.rs: run the per-rule checks over `rrules` then
`exrules`, accumulating findings in rule order. -/
def lint (spec : RecurrenceSpec) (has_between has_limit : Bool) : Findings :=
  (spec.rrules ++ spec.exrules).foldl
    (lintStep spec.dtstart_type has_between has_limit)
    { errors := [], warnings := [], hints := [] }

/-- `rule_has_count_or_until` from lib.rs. -/
def rule_has_count_or_until (rule : String) : Bool :=
  let fields := parse_rule_fields rule
  (fieldsGet fields "COUNT").isSome || (fieldsGet fields "UNTIL").isSome

/-- `is_potentially_unbounded` from lib.rs. -/
def is_potentially_unbounded (spec : RecurrenceSpec) : Bool :=
  spec.rrules.any fun rule => !rule_has_count_or_until rule.raw

/-- The E001 trigger condition transcribed from the specification's words
(section 4.6): the rule has an UNTIL field and either DTSTART is DATE
while UNTIL is DATE-TIME (contains `T`), or DTSTART is DATE-TIME while
UNTIL is of DATE form (eight digits). -/
def untilMismatch (dtType : DateValueType) (rule : String) : Prop :=
  ∃ u, fieldsGet (parse_rule_fields rule) "UNTIL" = some u ∧
    ((dtType = DateValueType.date ∧ u.contains 'T' = true) ∨
     (dtType = DateValueType.dateTime ∧ u.length = 8 ∧ u.data.all Char.isDigit = true))

/-! ## Concrete instances used in counterexamples and witnesses -/

/-- The trivial UTC zone: offset 0, no transitions. -/
def utcTz : TzM := { base := 0, transitions := [] }

/-- A two-transition model of Europe/Berlin during 2026: CET (+01:00) with
CEST (+02:00) between 2026-03-29T01:00Z and 2026-10-25T01:00Z, the IANA
rules for that year. -/
def berlin2026 : TzM :=
  { base := 3600, transitions := [(1774746000, 7200), (1792890000, 3600)] }

/-- A valid spec whose two RDATEs pin (in absolute form) the two instants
2026-10-25T00:30:00Z and 2026-10-25T01:30:00Z, which share the local
wall-clock 02:30:00 during the Berlin fall-back fold. -/
def foldSpec : RecurrenceSpec :=
  { dtstart := 1792888200
    dtstart_type := DateValueType.dateTime
    tzName := "Europe/Berlin"
    tzZone := berlin2026
    rrules := []
    rdates := [1792888200, 1792891800]
    exrules := []
    exdates := [] }

/-- First occurrence `expand` emits for `foldSpec`. -/
def foldOcc1 : Occurrence :=
  { start_local := "2026-10-25T02:30:00"
    start_utc := "2026-10-25T00:30:00Z"
    tz := "Europe/Berlin"
    source := OccurrenceSource.rdate
    rule_index := 0 }

/-- Second occurrence `expand` emits for `foldSpec`. -/
def foldOcc2 : Occurrence :=
  { start_local := "2026-10-25T02:30:00"
    start_utc := "2026-10-25T01:30:00Z"
    tz := "Europe/Berlin"
    source := OccurrenceSource.rdate
    rule_index := 1 }

/-- A minimal valid spec: a single RDATE at the epoch in UTC. -/
def epochSpec : RecurrenceSpec :=
  { dtstart := 0
    dtstart_type := DateValueType.dateTime
    tzName := "UTC"
    tzZone := utcTz
    rrules := []
    rdates := [0]
    exrules := []
    exdates := [] }

/-- A valid spec with three RDATEs (0, 100 and 200 seconds) in UTC. -/
def threeSpec : RecurrenceSpec :=
  { dtstart := 0
    dtstart_type := DateValueType.dateTime
    tzName := "UTC"
    tzZone := utcTz
    rrules := []
    rdates := [0, 100, 200]
    exrules := []
    exdates := [] }

/-- The occurrence `expand` emits for `epochSpec`. -/
def epochOcc : Occurrence :=
  { start_local := "1970-01-01T00:00:00"
    start_utc := "1970-01-01T00:00:00Z"
    tz := "UTC"
    source := OccurrenceSource.rdate
    rule_index := 0 }

/-- First occurrence of `threeSpec` after instant 50. -/
def threeOcc1 : Occurrence :=
  { start_local := "1970-01-01T00:01:40"
    start_utc := "1970-01-01T00:01:40Z"
    tz := "UTC"
    source := OccurrenceSource.rdate
    rule_index := 1 }

/-- Second occurrence of `threeSpec` after instant 50. -/
def threeOcc2 : Occurrence :=
  { start_local := "1970-01-01T00:03:20"
    start_utc := "1970-01-01T00:03:20Z"
    tz := "UTC"
    source := OccurrenceSource.rdate
    rule_index := 2 }

/-! ## Helper lemmas -/

theorem occurs_iff {r : RuleM} {t : Int} : r.occurs t = true ↔ t ∈ r.occs := by
  simp [RuleM.occurs, List.contains]

theorem mem_generated {s : RRuleSetM} {t : Int} :
    t ∈ s.generated ↔ ((∃ r ∈ s.rrules, t ∈ r.occs) ∨ t ∈ s.rdates) := by
  simp [RRuleSetM.generated, List.mem_dedup, List.mem_insertionSort, List.mem_append,
    List.mem_flatMap]

theorem generated_nodup (s : RRuleSetM) : s.generated.Nodup :=
  List.nodup_dedup _

theorem mem_instants {s : RRuleSetM} {t : Int} :
    t ∈ s.instants ↔ t ∈ s.generated ∧ s.excludedAt t = false := by
  simp [RRuleSetM.instants, List.mem_filter]

theorem instants_nodup (s : RRuleSetM) : s.instants.Nodup :=
  (generated_nodup s).filter _

theorem excludedAt_false_iff {s : RRuleSetM} {t : Int} :
    s.excludedAt t = false ↔ t ∉ s.exdates ∧ ∀ r ∈ s.exrules, t ∉ r.occs := by
  simp [RRuleSetM.excludedAt, List.any_eq_false, List.contains, RuleM.occurs]

theorem rdate_index_eq_none_iff {rdates : List Int} {ts : Int} :
    rdate_index rdates ts = none ↔ ts ∉ rdates := by
  induction rdates with
  | nil => simp [rdate_index]
  | cons d rest ih =>
      simp only [rdate_index]
      cases h : rdate_index rest ts with
      | some i =>
          have hmem : ts ∈ rest := by
            by_contra hmem
            exact Option.noConfusion (h.symm.trans (ih.mpr hmem))
          simp [hmem]
      | none =>
          have hrest : ts ∉ rest := ih.mp h
          by_cases hd : d = ts
          · simp [hd]
          · simp [hd, hrest]
            exact fun h => hd h.symm

theorem rdate_index_get {rdates : List Int} {ts : Int} {i : Nat} :
    rdate_index rdates ts = some i → rdates[i]? = some ts := by
  induction rdates generalizing i with
  | nil => intro h; simp [rdate_index] at h
  | cons d rest ih =>
      intro h
      simp only [rdate_index] at h
      cases hr : rdate_index rest ts with
      | some j =>
          rw [hr] at h
          cases h
          simpa using ih hr
      | none =>
          rw [hr] at h
          by_cases hd : d = ts
          · simp [hd] at h
            cases h
            simp [hd]
          · simp [hd] at h

theorem collect_between_ok {set : RRuleSetM} {a b : Int} {hl : Nat} {dates : List Int}
    (h : collect_dates set (ExpandQuery.between a b) hl = Except.ok dates) :
    dates = (set.betweenWindow a b).take (hl + 1) ∧ dates.length ≤ hl := by
  simp only [collect_dates] at h
  split_ifs at h with h1 h2 h3
  obtain rfl : dates = _ := (Except.ok.inj h).symm
  exact ⟨rfl, Nat.le_of_not_lt h3⟩

theorem collect_after_ok {set : RRuleSetM} {s : Int} {c hl : Nat} {dates : List Int}
    (h : collect_dates set (ExpandQuery.after s c) hl = Except.ok dates) :
    dates = (set.afterStream s).take c ∧ 1 ≤ c ∧ c ≤ hl := by
  simp only [collect_dates] at h
  split_ifs at h with h1 h2 h3 h4 h5
  obtain rfl : dates = _ := (Except.ok.inj h).symm
  exact ⟨rfl, Nat.pos_of_ne_zero h3, Nat.le_of_not_lt h4⟩

theorem collect_unbounded_ok {set : RRuleSetM} {hl : Nat} {dates : List Int}
    (h : collect_dates set ExpandQuery.unbounded hl = Except.ok dates) :
    dates = set.instants.take hl := by
  simp only [collect_dates] at h
  split_ifs at h with h1 h2 h3
  exact (Except.ok.inj h).symm

theorem collect_ok_sublist {set : RRuleSetM} {q : ExpandQuery} {hl : Nat}
    {dates : List Int} (h : collect_dates set q hl = Except.ok dates) :
    dates.Sublist set.instants := by
  cases q with
  | between a b =>
      obtain ⟨rfl, -⟩ := collect_between_ok h
      exact (List.take_sublist _ _).trans (List.filter_sublist _)
  | after s c =>
      obtain ⟨rfl, -, -⟩ := collect_after_ok h
      exact (List.take_sublist _ _).trans (List.filter_sublist _)
  | unbounded =>
      rw [collect_unbounded_ok h]
      exact List.take_sublist _ _

theorem collect_ok_nodup {set : RRuleSetM} {q : ExpandQuery} {hl : Nat}
    {dates : List Int} (h : collect_dates set q hl = Except.ok dates) :
    dates.Nodup :=
  (instants_nodup set).sublist (collect_ok_sublist h)

theorem expand_ok_elim {spec : RecurrenceSpec} {q : ExpandQuery} {hl : Nat}
    {occs : List Occurrence} (h : expand spec q hl = Except.ok occs) :
    ∃ dates, collect_dates (buildSet spec) q hl = Except.ok dates ∧
      occs = sortOccs (dates.map (renderOccurrence spec)) := by
  by_cases h0 : hl = 0
  · simp [expand, h0] at h
  · simp only [expand, if_neg h0] at h
    cases hc : collect_dates (buildSet spec) q hl with
    | error e => rw [hc] at h; cases h
    | ok dates =>
        rw [hc] at h
        simp only [Except.ok.injEq] at h
        exact ⟨dates, rfl, h.symm⟩

theorem findIdx?_exists_of_mem {p : α → Bool} {l : List α}
    (h : ∃ x ∈ l, p x = true) : ∃ i, l.findIdx? p = some i := by
  induction l with
  | nil => simp at h
  | cons a l ih =>
      by_cases ha : p a
      · exact ⟨0, by simp [List.findIdx?, ha]⟩
      · obtain ⟨x, hx, hpx⟩ := h
        rw [List.mem_cons] at hx
        rcases hx with rfl | hx
        · exact absurd hpx ha
        · obtain ⟨i, hi⟩ := ih ⟨x, hx, hpx⟩
          exact ⟨i + 1, by simp [List.findIdx?, ha, hi]⟩

theorem renderOccurrence_source (spec : RecurrenceSpec) (t : Int) :
    (renderOccurrence spec t).source = (classify spec t).1 := rfl

theorem renderOccurrence_rule_index (spec : RecurrenceSpec) (t : Int) :
    (renderOccurrence spec t).rule_index = (classify spec t).2 := rfl

theorem explain_fields_of_mem_instants (spec : RecurrenceSpec) (t : Int)
    (ht : t ∈ (buildSet spec).instants) :
    (explain spec t).included = true ∧
    (explain spec t).generated_by = some (classify spec t).1 ∧
    (explain spec t).generated_rule_index = some (classify spec t).2 := by
  obtain ⟨hgen, hexc⟩ := mem_instants.mp ht
  obtain ⟨hexd, hexr⟩ := excludedAt_false_iff.mp hexc
  have hexdate : (spec.exdates.any fun d => d == t) = false := by
    simp only [List.any_eq_false, beq_iff_eq]
    exact fun d hd hdt => hexd (hdt ▸ hd)
  have hexrule :
      (spec.exrules.any fun rule => matches_exrule_at spec.dtstart rule t) = false := by
    simp only [List.any_eq_false]
    intro r hr hrt
    exact hexr r hr (occurs_iff.mp hrt)
  cases hidx : rdate_index spec.rdates t with
  | some idx =>
      refine ⟨?_, ?_, ?_⟩ <;>
        simp [explain, explainGen, classify, hidx, hexdate, hexrule]
  | none =>
      have hmem : ∃ r ∈ spec.rrules, matches_rule_at spec.dtstart r t = true := by
        rcases mem_generated.mp hgen with ⟨r, hr, hrt⟩ | hrd
        · exact ⟨r, hr, occurs_iff.mpr hrt⟩
        · exact absurd hrd (rdate_index_eq_none_iff.mp hidx)
      obtain ⟨i, hfi⟩ := findIdx?_exists_of_mem hmem
      refine ⟨?_, ?_, ?_⟩ <;>
        simp [explain, explainGen, classify, hidx, hfi, hexdate, hexrule]

theorem offsetAt_mem_cons (base : Int) (l : List (Int × Int)) (t : Int) :
    l.foldl (fun acc tr => if tr.1 ≤ t then tr.2 else acc) base ∈
      base :: l.map Prod.snd := by
  induction l generalizing base with
  | nil => simp
  | cons tr rest ih =>
      simp only [List.foldl_cons, List.map_cons]
      by_cases htr : tr.1 ≤ t
      · rw [if_pos htr]
        rcases List.mem_cons.mp (ih tr.2) with h | h
        · simp [h]
        · simp [List.mem_cons.mpr (Or.inr h)]
      · rw [if_neg htr]
        rcases List.mem_cons.mp (ih base) with h | h
        · simp [h]
        · simp [List.mem_cons.mpr (Or.inr h)]

theorem offsetAt_mem_offsets (tz : TzM) (t : Int) : tz.offsetAt t ∈ tz.offsets := by
  rw [TzM.offsets, List.mem_dedup]
  exact offsetAt_mem_cons tz.base tz.transitions t

theorem self_mem_localCandidates (tz : TzM) (t : Int) :
    t ∈ tz.localCandidates (tz.localOf t) := by
  rw [TzM.localCandidates, List.mem_dedup, List.mem_filterMap]
  refine ⟨tz.offsetAt t, offsetAt_mem_offsets tz t, ?_⟩
  simp [TzM.localOf]

theorem localOf_eq_of_mem_localCandidates {tz : TzM} {L u : Int}
    (h : u ∈ tz.localCandidates L) : tz.localOf u = L := by
  rw [TzM.localCandidates, List.mem_dedup, List.mem_filterMap] at h
  obtain ⟨o, -, ho⟩ := h
  by_cases hc : tz.offsetAt (L - o) = o
  · rw [if_pos hc] at ho
    cases ho
    rw [TzM.localOf, hc]
    ring
  · rw [if_neg hc] at ho
    cases ho

theorem usizeMax_guard_of_le {hl : Nat} (h : hl ≤ 65534) : ¬ usizeMax < hl + 1 := by
  have : usizeMax = 18446744073709551615 := rfl
  omega

theorem u16Max_guard_of_le {hl : Nat} (h : hl ≤ 65534) : ¬ u16Max < hl + 1 := by
  have : u16Max = 65535 := rfl
  omega

theorem collect_between_error_iff {set : RRuleSetM} {a b : Int} {hl : Nat}
    (h : hl ≤ 65534) :
    collect_dates set (ExpandQuery.between a b) hl =
        Except.error (CoreError.limitExceeded hl) ↔
      hl < (set.betweenWindow a b).length := by
  simp only [collect_dates, if_neg (usizeMax_guard_of_le h), if_neg (u16Max_guard_of_le h)]
  constructor
  · intro he
    by_cases hlen : hl < ((set.betweenWindow a b).take (hl + 1)).length
    · rw [List.length_take] at hlen
      omega
    · rw [if_neg hlen] at he
      cases he
  · intro hw
    have hlen : hl < ((set.betweenWindow a b).take (hl + 1)).length := by
      rw [List.length_take]
      omega
    rw [if_pos hlen]

theorem collect_between_full {set : RRuleSetM} {a b : Int} {hl : Nat}
    (h : hl ≤ 65534) (hw : (set.betweenWindow a b).length ≤ hl) :
    collect_dates set (ExpandQuery.between a b) hl =
      Except.ok (set.betweenWindow a b) := by
  simp only [collect_dates, if_neg (usizeMax_guard_of_le h), if_neg (u16Max_guard_of_le h)]
  have htake : (set.betweenWindow a b).take (hl + 1) = set.betweenWindow a b :=
    List.take_of_length_le (by omega)
  rw [htake, if_neg (by omega)]

theorem string_eq_of_data_eq {a b : String} (h : a.data = b.data) : a = b := by
  cases a
  cases b
  cases h
  rfl

theorem char_eq_of_toNat_eq {a b : Char} (h : a.toNat = b.toNat) : a = b :=
  Char.ext (UInt32.ext h)

theorem listLtB_trans :
    ∀ {as bs cs : List Char}, listLtB as bs = true → listLtB bs cs = true →
      listLtB as cs = true
  | [], _ :: _, _ :: _, _, _ => rfl
  | [], [], _, h, _ => by cases h
  | [], _ :: _, [], _, h => by cases h
  | _ :: _, [], _, h, _ => by cases h
  | _ :: _, _ :: _, [], _, h => by cases h
  | a :: as, b :: bs, c :: cs, h1, h2 => by
      rw [listLtB] at h1 h2 ⊢
      by_cases hab : a.toNat < b.toNat <;> by_cases hbc : b.toNat < c.toNat
      · rw [if_pos (by omega : a.toNat < c.toNat)]
      · rw [if_neg hbc] at h2
        by_cases hbc2 : b.toNat = c.toNat
        · rw [if_pos (by omega : a.toNat < c.toNat)]
        · rw [if_neg hbc2] at h2
          cases h2
      · rw [if_neg hab] at h1
        by_cases hab2 : a.toNat = b.toNat
        · rw [if_pos (by omega : a.toNat < c.toNat)]
        · rw [if_neg hab2] at h1
          cases h1
      · rw [if_neg hab] at h1
        rw [if_neg hbc] at h2
        by_cases hab2 : a.toNat = b.toNat
        · by_cases hbc2 : b.toNat = c.toNat
          · rw [if_pos hab2] at h1
            rw [if_pos hbc2] at h2
            rw [if_neg (by omega : ¬ a.toNat < c.toNat),
              if_pos (by omega : a.toNat = c.toNat)]
            exact listLtB_trans h1 h2
          · rw [if_neg hbc2] at h2
            cases h2
        · rw [if_neg hab2] at h1
          cases h1

theorem listLtB_total :
    ∀ (as bs : List Char), listLtB as bs = true ∨ as = bs ∨ listLtB bs as = true
  | [], [] => Or.inr (Or.inl rfl)
  | [], _ :: _ => Or.inl rfl
  | _ :: _, [] => Or.inr (Or.inr rfl)
  | a :: as, b :: bs => by
      rcases Nat.lt_trichotomy a.toNat b.toNat with h | h | h
      · left
        rw [listLtB, if_pos h]
      · rcases listLtB_total as bs with h2 | h2 | h2
        · left
          rw [listLtB, if_neg (by omega), if_pos h]
          exact h2
        · right; left
          rw [char_eq_of_toNat_eq h, h2]
        · right; right
          rw [listLtB, if_neg (by omega), if_pos h.symm]
          exact h2
      · right; right
        rw [listLtB, if_pos h]

instance : IsTotal Occurrence occLe := by
  constructor
  intro o1 o2
  rcases listLtB_total o1.start_utc.data o2.start_utc.data with h | h | h
  · exact Or.inl (Or.inl h)
  · have hutc := string_eq_of_data_eq h
    rcases listLtB_total o1.start_local.data o2.start_local.data with h2 | h2 | h2
    · exact Or.inl (Or.inr ⟨hutc, Or.inl h2⟩)
    · have hloc := string_eq_of_data_eq h2
      rcases Nat.le_total o1.rule_index o2.rule_index with h3 | h3
      · exact Or.inl (Or.inr ⟨hutc, Or.inr ⟨hloc, h3⟩⟩)
      · exact Or.inr (Or.inr ⟨hutc.symm, Or.inr ⟨hloc.symm, h3⟩⟩)
    · exact Or.inr (Or.inr ⟨hutc.symm, Or.inl h2⟩)
  · exact Or.inr (Or.inl h)

instance : IsTrans Occurrence occLe := by
  constructor
  intro o1 o2 o3 h12 h23
  rcases h12 with h12 | ⟨hu12, h12⟩ <;> rcases h23 with h23 | ⟨hu23, h23⟩
  · exact Or.inl (listLtB_trans h12 h23)
  · left
    rw [strLt] at h12 ⊢
    rw [← hu23]
    exact h12
  · left
    rw [strLt] at h23 ⊢
    rw [hu12]
    exact h23
  · refine Or.inr ⟨hu12.trans hu23, ?_⟩
    rcases h12 with h12 | ⟨hl12, h12⟩ <;> rcases h23 with h23 | ⟨hl23, h23⟩
    · exact Or.inl (listLtB_trans h12 h23)
    · left
      rw [strLt] at h12 ⊢
      rw [← hl23]
      exact h12
    · left
      rw [strLt] at h23 ⊢
      rw [hl12]
      exact h23
    · exact Or.inr ⟨hl12.trans hl23, le_trans h12 h23⟩

theorem sortOccs_sorted (l : List Occurrence) : (sortOccs l).Pairwise occLe :=
  List.sorted_insertionSort occLe l

theorem expand_error_iff {spec : RecurrenceSpec} {q : ExpandQuery} {hl : Nat}
    {e : CoreError} (h0 : hl ≠ 0) :
    expand spec q hl = Except.error e ↔
      collect_dates (buildSet spec) q hl = Except.error e := by
  rw [expand, if_neg h0]
  cases hc : collect_dates (buildSet spec) q hl <;> simp

theorem expand_ok_of_collect {spec : RecurrenceSpec} {q : ExpandQuery} {hl : Nat}
    {dates : List Int} (h0 : hl ≠ 0)
    (h : collect_dates (buildSet spec) q hl = Except.ok dates) :
    expand spec q hl = Except.ok (sortOccs (dates.map (renderOccurrence spec))) := by
  rw [expand, if_neg h0, h]

theorem single_eq_none_iff {tz : TzM} {L : Int} :
    tz.single L = none ↔ (tz.localCandidates L).length ≠ 1 := by
  rw [TzM.single]
  rcases h : tz.localCandidates L with _ | ⟨x, _ | ⟨y, rest⟩⟩ <;> simp [h]

theorem localize_error_of_ambiguous {tz : TzM} {L : Int} (input : String)
    (hlen : (tz.localCandidates L).length ≠ 1) :
    localize tz L input = Except.error (CoreError.invalidDateTime input
      "ambiguous or invalid local time in timezone") := by
  have hs : tz.single L = none := single_eq_none_iff.mpr hlen
  rw [localize.eq_def, hs]

theorem lint_foldl_errors (dtType : DateValueType) (hb hlim : Bool)
    (rules : List RuleM) (acc : Findings) :
    (rules.foldl (lintStep dtType hb hlim) acc).errors =
      acc.errors ++ rules.flatMap fun r => (lintRule dtType hb hlim r.raw).errors := by
  induction rules generalizing acc with
  | nil => simp
  | cons r rest ih =>
      rw [List.foldl_cons, ih, List.flatMap_cons, lintStep]
      simp [List.append_assoc]

theorem lintRule_errors_code (dtType : DateValueType) (hb hlim : Bool)
    (rule : String) :
    ∀ f ∈ (lintRule dtType hb hlim rule).errors, f.code = "E001" := by
  intro f hf
  simp only [lintRule] at hf
  rcases hu : fieldsGet (parse_rule_fields rule) "UNTIL" with - | u <;> rw [hu] at hf
  · simp at hf
  · simp only at hf
    split_ifs at hf <;> simp_all

theorem lintRule_errors_ne_nil_iff (dtType : DateValueType) (hb hlim : Bool)
    (rule : String) :
    (lintRule dtType hb hlim rule).errors ≠ [] ↔ untilMismatch dtType rule := by
  rw [untilMismatch]
  rcases hu : fieldsGet (parse_rule_fields rule) "UNTIL" with - | u
  · simp [lintRule, hu]
  · simp only [lintRule, hu]
    cases dtType with
    | date =>
        by_cases hT : u.contains 'T'
        · simp [hT]
        · simp [hT]
    | dateTime =>
        by_cases h8 : u.length == 8 && u.data.all Char.isDigit
        · simp only [Bool.and_eq_true] at h8
          obtain ⟨h81, h82⟩ := h8
          have hlen : u.length = 8 := by simpa using h81
          simp [h81, h82, hlen]
          exact fun x hx => List.all_eq_true.mp h82 x hx
        · simp only [Bool.and_eq_true] at h8
          by_cases hT : u.contains 'T' <;>
            simp_all [Nat.beq_eq]

theorem localize_ok_elim {tz : TzM} {L u : Int} {input : String}
    (h : localize tz L input = Except.ok u) : tz.localCandidates L = [u] := by
  rw [localize] at h
  cases hs : tz.single L with
  | none => rw [hs] at h; cases h
  | some v =>
      rw [hs] at h
      cases h
      rw [TzM.single] at hs
      rcases hc : tz.localCandidates L with _ | ⟨x, _ | ⟨y, rest⟩⟩ <;> rw [hc] at hs
      · cases hs
      · cases hs; rfl
      · cases hs

/-! ## Claims -/

/-- C1: for every valid spec and every `After{start, count}` query with
`1 ≤ count ≤ hard_limit`, every occurrence `expand` returns is the
rendering of an instant strictly after `start` (never equal to it), and at
most `min count hard_limit` occurrences are returned. -/
theorem claim1_after_strictly_after (spec : RecurrenceSpec) (start : Int)
    (count hard_limit : Nat) (occs : List Occurrence)
    (hc1 : 1 ≤ count) (hc2 : count ≤ hard_limit)
    (h : expand spec (ExpandQuery.after start count) hard_limit = Except.ok occs) :
    occs.length ≤ min count hard_limit ∧
    ∀ o ∈ occs, ∃ t : Int, start < t ∧ o = renderOccurrence spec t := by
  obtain ⟨dates, hcd, rfl⟩ := expand_ok_elim h
  obtain ⟨rfl, -, -⟩ := collect_after_ok hcd
  constructor
  · rw [sortOccs, List.length_insertionSort, List.length_map, List.length_take]
    omega
  · intro o ho
    rw [sortOccs, List.mem_insertionSort] at ho
    obtain ⟨t, ht, rfl⟩ := List.mem_map.mp ho
    have ht2 := (List.mem_filter.mp (List.mem_of_mem_take ht)).2
    exact ⟨t, of_decide_eq_true ht2, rfl⟩

/-- C2 as stated fails: with `hard_limit = 65535` the internal `u16`
narrowing fails and `expand` reports `LimitExceeded` although the
recurrence set has no instant at all inside the window `[100, 200]`. -/
theorem claim2_counterexample :
    expand epochSpec (ExpandQuery.between 100 200) 65535 =
        Except.error (CoreError.limitExceeded 65535) ∧
    ((buildSet epochSpec).betweenWindow 100 200).length = 0 := by
  constructor
  · rfl
  · rfl

/-- C2 amended: for every valid spec and `Between{start, end}` query with
`start ≤ end` and `1 ≤ hard_limit ≤ 65534`, `expand` fails with
`LimitExceeded{hard_limit}` exactly when the recurrence set has more than
`hard_limit` instants in the inclusive window, and otherwise returns the
renderings of all of those instants. -/
theorem claim2_between_limit (spec : RecurrenceSpec) (a b : Int)
    (hard_limit : Nat) (hab : a ≤ b) (h1 : 1 ≤ hard_limit)
    (h2 : hard_limit ≤ 65534) :
    (expand spec (ExpandQuery.between a b) hard_limit =
        Except.error (CoreError.limitExceeded hard_limit) ↔
      hard_limit < ((buildSet spec).betweenWindow a b).length) ∧
    (((buildSet spec).betweenWindow a b).length ≤ hard_limit →
      expand spec (ExpandQuery.between a b) hard_limit =
        Except.ok (sortOccs (((buildSet spec).betweenWindow a b).map
          (renderOccurrence spec)))) := by
  constructor
  · rw [expand_error_iff (by omega)]
    exact collect_between_error_iff h2
  · intro hw
    exact expand_ok_of_collect (by omega) (collect_between_full h2 hw)

/-- C3: every occurrence `expand` returns is the rendering of an instant
`t` for which `explain` reports `included = true`, the same source in
`generated_by`, and the same rule index in `generated_rule_index`. -/
theorem claim3_expand_explain_agree (spec : RecurrenceSpec)
    (query : ExpandQuery) (hard_limit : Nat) (occs : List Occurrence)
    (h : expand spec query hard_limit = Except.ok occs) :
    ∀ o ∈ occs, ∃ t : Int,
      o = renderOccurrence spec t ∧
      (explain spec t).included = true ∧
      (explain spec t).generated_by = some o.source ∧
      (explain spec t).generated_rule_index = some o.rule_index := by
  obtain ⟨dates, hcd, rfl⟩ := expand_ok_elim h
  intro o ho
  rw [sortOccs, List.mem_insertionSort] at ho
  obtain ⟨t, ht, rfl⟩ := List.mem_map.mp ho
  have hti : t ∈ (buildSet spec).instants := (collect_ok_sublist hcd).subset ht
  obtain ⟨hinc, hgb, hgi⟩ := explain_fields_of_mem_instants spec t hti
  exact ⟨t, rfl, hinc,
    by rw [hgb, renderOccurrence_source],
    by rw [hgi, renderOccurrence_rule_index]⟩

/-- C4: `expand` emits each produced instant once; an instant whose
UNIX-second timestamp equals an RDATE is attributed to that RDATE (source
RDATE, index the position of the RDATE in `spec.rdates`) even when an
RRULE also generates it, and every other instant is attributed to the
first RRULE in order whose single-rule probe matches, with index 0 when no
rule matches. -/
theorem claim4_source_attribution (spec : RecurrenceSpec)
    (query : ExpandQuery) (hard_limit : Nat) (occs : List Occurrence)
    (h : expand spec query hard_limit = Except.ok occs) :
    ∃ dates : List Int,
      collect_dates (buildSet spec) query hard_limit = Except.ok dates ∧
      dates.Nodup ∧
      occs = sortOccs (dates.map (renderOccurrence spec)) ∧
      ∀ t ∈ dates,
        (t ∈ spec.rdates →
          (renderOccurrence spec t).source = OccurrenceSource.rdate ∧
          ∃ i, rdate_index spec.rdates t = some i ∧
            (renderOccurrence spec t).rule_index = i ∧
            spec.rdates[i]? = some t) ∧
        (t ∉ spec.rdates →
          (renderOccurrence spec t).source = OccurrenceSource.rrule ∧
          (renderOccurrence spec t).rule_index =
            ((spec.rrules.findIdx? fun rule =>
              matches_rule_at spec.dtstart rule t).getD 0)) := by
  obtain ⟨dates, hcd, rfl⟩ := expand_ok_elim h
  refine ⟨dates, hcd, collect_ok_nodup hcd, rfl, ?_⟩
  intro t _
  constructor
  · intro hmem
    cases hidx : rdate_index spec.rdates t with
    | none => exact absurd hmem (rdate_index_eq_none_iff.mp hidx)
    | some i =>
        refine ⟨?_, i, rfl, ?_, rdate_index_get hidx⟩ <;>
          simp [renderOccurrence, classify, hidx]
  · intro hmem
    have hidx : rdate_index spec.rdates t = none := rdate_index_eq_none_iff.mpr hmem
    constructor <;> simp [renderOccurrence, classify, hidx]

/-- C5 as stated fails: during the 2026 Berlin fall-back fold, `expand`
emits two occurrences with the same `start_local` but different
`start_utc`, so the `start_local` wall-clock denotes two instants of the
zone, not a unique one. -/
theorem claim5_counterexample :
    expand foldSpec ExpandQuery.unbounded 10 = Except.ok [foldOcc1, foldOcc2] ∧
    foldOcc1.start_local = foldOcc2.start_local ∧
    foldOcc1.start_utc ≠ foldOcc2.start_utc ∧
    foldSpec.tzZone.localCandidates 1792895400 = [1792888200, 1792891800] ∧
    foldOcc1.start_local = formatSecs 1792895400 := by
  refine ⟨by rfl, rfl, by decide, by decide, rfl⟩

/-- C5 amended: every occurrence `expand` returns renders one instant `t`
both ways — `start_utc` is the UTC rendering of `t` and `start_local` the
wall-clock rendering of `t` in the spec's zone — and `t` is among the
instants its local wall-clock denotes in the zone; when that wall-clock is
unambiguous in the zone, the unique instant it denotes is `t`.  Uniqueness
can fail for occurrences inside a DST fall-back fold. -/
theorem claim5_local_utc_round_trip (spec : RecurrenceSpec)
    (query : ExpandQuery) (hard_limit : Nat) (occs : List Occurrence)
    (h : expand spec query hard_limit = Except.ok occs) :
    ∀ o ∈ occs, ∃ t : Int,
      o.start_utc = formatSecs t ++ "Z" ∧
      o.start_local = formatSecs (spec.tzZone.localOf t) ∧
      t ∈ spec.tzZone.localCandidates (spec.tzZone.localOf t) ∧
      ∀ u : Int, spec.tzZone.localCandidates (spec.tzZone.localOf t) = [u] →
        u = t := by
  obtain ⟨dates, hcd, rfl⟩ := expand_ok_elim h
  intro o ho
  rw [sortOccs, List.mem_insertionSort] at ho
  obtain ⟨t, ht, rfl⟩ := List.mem_map.mp ho
  refine ⟨t, rfl, rfl, self_mem_localCandidates spec.tzZone t, ?_⟩
  intro u hu
  have := self_mem_localCandidates spec.tzZone t
  rw [hu, List.mem_singleton] at this
  exact this.symm

/-- C6: `explain` reports `excluded_by = "EXDATE"` exactly when some
EXDATE shares the instant's UNIX-second timestamp, `excluded_by =
"EXRULE"` exactly when no EXDATE matches but some single-EXRULE probe
does, no `excluded_by` otherwise, and `included` holds exactly when a
generator was found and no exclusion applies. -/
theorem claim6_excluded_by (spec : RecurrenceSpec) (t : Int) :
    ((explain spec t).excluded_by = some "EXDATE" ↔
      ∃ d ∈ spec.exdates, d = t) ∧
    ((explain spec t).excluded_by = some "EXRULE" ↔
      ((¬ ∃ d ∈ spec.exdates, d = t) ∧
        ∃ r ∈ spec.exrules, matches_exrule_at spec.dtstart r t = true)) ∧
    ((explain spec t).excluded_by = none ↔
      ((¬ ∃ d ∈ spec.exdates, d = t) ∧
        ¬ ∃ r ∈ spec.exrules, matches_exrule_at spec.dtstart r t = true)) ∧
    ((explain spec t).included = true ↔
      ((explain spec t).generated_by.isSome = true ∧
        (explain spec t).excluded_by = none)) := by
  have hEx : (explain spec t).excluded_by =
      (if spec.exdates.any fun d => d == t then some "EXDATE"
       else if spec.exrules.any fun r => matches_exrule_at spec.dtstart r t then
         some "EXRULE"
       else none) := rfl
  have hGb : (explain spec t).generated_by = (explainGen spec t).map Prod.fst := rfl
  have hInc : (explain spec t).included =
      ((explainGen spec t).isSome && ((explain spec t).excluded_by).isNone) := rfl
  have hdIff : (spec.exdates.any fun d => d == t) = true ↔
      ∃ d ∈ spec.exdates, d = t := by
    simp
  have hrIff : (spec.exrules.any fun r => matches_exrule_at spec.dtstart r t) = true ↔
      ∃ r ∈ spec.exrules, matches_exrule_at spec.dtstart r t = true := by
    simp [List.any_eq_true]
  cases h1 : spec.exdates.any fun d => d == t with
  | true =>
      have hd : ∃ d ∈ spec.exdates, d = t := hdIff.mp h1
      have hEx' : (explain spec t).excluded_by = some "EXDATE" := by
        rw [hEx, h1]; rfl
      refine ⟨?_, ?_, ?_, ?_⟩
      · rw [hEx']; simp [hd]
      · rw [hEx']; simp [hd]
      · rw [hEx']; simp [hd]
      · rw [hInc, hEx']; simp
  | false =>
      have hd : ¬ ∃ d ∈ spec.exdates, d = t := by
        rw [← hdIff, h1]; exact Bool.false_ne_true
      cases h2 : spec.exrules.any fun r => matches_exrule_at spec.dtstart r t with
      | true =>
          have hr : ∃ r ∈ spec.exrules, matches_exrule_at spec.dtstart r t = true :=
            hrIff.mp h2
          have hEx' : (explain spec t).excluded_by = some "EXRULE" := by
            rw [hEx, h1, h2]; rfl
          refine ⟨?_, ?_, ?_, ?_⟩
          · rw [hEx']; simp [hd]
          · rw [hEx']
            constructor
            · intro _
              exact ⟨hd, hr⟩
            · intro _
              rfl
          · rw [hEx']
            simp [hd]
            exact hr
          · rw [hInc, hEx']; simp
      | false =>
          have hr : ¬ ∃ r ∈ spec.exrules, matches_exrule_at spec.dtstart r t = true := by
            rw [← hrIff, h2]; exact Bool.false_ne_true
          have hEx' : (explain spec t).excluded_by = none := by
            rw [hEx, h1, h2]; rfl
          refine ⟨?_, ?_, ?_, ?_⟩
          · rw [hEx']; simp [hd]
          · rw [hEx']; simp [hd, hr]
          · rw [hEx']; simp [hd, hr]
          · rw [hInc, hGb, hEx']
            cases hg : explainGen spec t <;> simp

/-- C7: the list `expand` returns is sorted ascending by the lexicographic
triple `(start_utc, start_local, rule_index)`: non-decreasing by
`start_utc`, ties broken by `start_local`, remaining ties by
`rule_index`. -/
theorem claim7_sorted_output (spec : RecurrenceSpec) (query : ExpandQuery)
    (hard_limit : Nat) (occs : List Occurrence)
    (h : expand spec query hard_limit = Except.ok occs) :
    occs.Pairwise fun o1 o2 =>
      strLt o1.start_utc o2.start_utc ∨
        (o1.start_utc = o2.start_utc ∧
          (strLt o1.start_local o2.start_local ∨
            (o1.start_local = o2.start_local ∧
              o1.rule_index ≤ o2.rule_index))) := by
  obtain ⟨dates, -, rfl⟩ := expand_ok_elim h
  exact (sortOccs_sorted _).imp fun hab => hab

/-- C8: `parse_iso_datetime` fails with `InvalidDateTime` when the value
matches none of the three accepted forms; it also fails when the value is
a local wall-clock form (naive date-time, or date interpreted at local
midnight) that is ambiguous or nonexistent in the zone; and whenever it
succeeds the instant is either pinned by an explicit RFC 3339 offset or is
the unique instant carrying its local wall-clock, so ambiguity is never
silently resolved. -/
theorem claim8_parse_iso_rejects (value : String) (tz : TzM) :
    (parseDateChars value.data = none → parseRfc3339 value = none →
      parseNaiveDTChars value.data = none →
      parse_iso_datetime value tz =
        Except.error (CoreError.invalidDateTime value
          "expected YYYY-MM-DD, YYYY-MM-DDTHH:MM:SS, or RFC3339")) ∧
    (∀ L : Int, parseDateChars value.data = none → parseRfc3339 value = none →
      parseNaiveDTChars value.data = some L →
      (tz.localCandidates L).length ≠ 1 →
      parse_iso_datetime value tz =
        Except.error (CoreError.invalidDateTime value
          "ambiguous or invalid local time in timezone")) ∧
    (∀ d : Int, parseDateChars value.data = some d →
      (tz.localCandidates (d * 86400)).length ≠ 1 →
      parse_iso_datetime value tz =
        Except.error (CoreError.invalidDateTime value
          "ambiguous or invalid local time in timezone")) ∧
    (∀ (t : Int) (k : DateValueType),
      parse_iso_datetime value tz = Except.ok (t, k) →
      (parseDateChars value.data = none ∧ parseRfc3339 value = some t) ∨
        tz.localCandidates (tz.localOf t) = [t]) := by
  refine ⟨?_, ?_, ?_, ?_⟩
  · intro h1 h2 h3
    simp [parse_iso_datetime, h1, h2, h3]
  · intro L h1 h2 h3 hlen
    simp [parse_iso_datetime, h1, h2, h3, localize_error_of_ambiguous value hlen]
  · intro d h1 hlen
    simp [parse_iso_datetime, h1, localize_error_of_ambiguous value hlen]
  · intro t k h
    simp only [parse_iso_datetime] at h
    cases hd : parseDateChars value.data with
    | some d =>
        rw [hd] at h
        simp only at h
        right
        cases hl : localize tz (d * 86400) value with
        | error e => rw [hl] at h; simp at h
        | ok u =>
            rw [hl] at h
            simp only [Except.ok.injEq, Prod.mk.injEq] at h
            rw [h.1] at hl
            have hc := localize_ok_elim hl
            have hmem : t ∈ tz.localCandidates (d * 86400) := by
              rw [hc]; exact List.mem_singleton.mpr rfl
            rw [localOf_eq_of_mem_localCandidates hmem, hc]
    | none =>
        rw [hd] at h
        simp only at h
        cases hr : parseRfc3339 value with
        | some v =>
            rw [hr] at h
            simp only [Except.ok.injEq, Prod.mk.injEq] at h
            exact Or.inl ⟨rfl, by rw [h.1]⟩
        | none =>
            rw [hr] at h
            simp only at h
            right
            cases hn : parseNaiveDTChars value.data with
            | none => rw [hn] at h; simp at h
            | some L =>
                rw [hn] at h
                simp only at h
                cases hl : localize tz L value with
                | error e => rw [hl] at h; simp at h
                | ok u =>
                    rw [hl] at h
                    simp only [Except.ok.injEq, Prod.mk.injEq] at h
                    rw [h.1] at hl
                    have hc := localize_ok_elim hl
                    have hmem : t ∈ tz.localCandidates L := by
                      rw [hc]; exact List.mem_singleton.mpr rfl
                    rw [localOf_eq_of_mem_localCandidates hmem, hc]

/-- C9: the errors `lint` emits are exactly one E001 per rule (over
`rrules` then `exrules`) whose UNTIL value type mismatches
`dtstart_type`: DTSTART DATE with a DATE-TIME UNTIL (contains `T`), or
DTSTART DATE-TIME with a DATE-form UNTIL (eight digits). -/
theorem claim9_lint_e001 (spec : RecurrenceSpec) (has_between has_limit : Bool) :
    ((lint spec has_between has_limit).errors =
      (spec.rrules ++ spec.exrules).flatMap fun r =>
        (lintRule spec.dtstart_type has_between has_limit r.raw).errors) ∧
    (∀ f ∈ (lint spec has_between has_limit).errors, f.code = "E001") ∧
    (∀ rule : String,
      (lintRule spec.dtstart_type has_between has_limit rule).errors ≠ [] ↔
        untilMismatch spec.dtstart_type rule) := by
  have heq := lint_foldl_errors spec.dtstart_type has_between has_limit
    (spec.rrules ++ spec.exrules) { errors := [], warnings := [], hints := [] }
  have h1 : (lint spec has_between has_limit).errors =
      (spec.rrules ++ spec.exrules).flatMap fun r =>
        (lintRule spec.dtstart_type has_between has_limit r.raw).errors := by
    rw [lint, heq]
    rfl
  refine ⟨h1, ?_, ?_⟩
  · intro f hf
    rw [h1] at hf
    obtain ⟨r, -, hfr⟩ := List.mem_flatMap.mp hf
    exact lintRule_errors_code spec.dtstart_type has_between has_limit r.raw f hfr
  · exact lintRule_errors_ne_nil_iff spec.dtstart_type has_between has_limit

/-- C10: once `hard_limit ≥ 65535`, the `u16` narrowing of
`hard_limit + 1` in `collect_dates` fails, so `expand` reports
`LimitExceeded{hard_limit}` for every query and every spec regardless of
how many occurrences the spec produces; 65534 is therefore the largest
usable hard limit, a bound the specification does not state. -/
theorem claim10_u16_ceiling (spec : RecurrenceSpec) (query : ExpandQuery)
    (hard_limit : Nat) (h : 65535 ≤ hard_limit) :
    expand spec query hard_limit =
      Except.error (CoreError.limitExceeded hard_limit) := by
  have h0 : ¬ hard_limit = 0 := by omega
  rw [expand, if_neg h0]
  have hcd : collect_dates (buildSet spec) query hard_limit =
      Except.error (CoreError.limitExceeded hard_limit) := by
    rw [collect_dates.eq_def]
    by_cases hu : usizeMax < hard_limit + 1
    · rw [if_pos hu]
    · rw [if_neg hu, if_pos (show u16Max < hard_limit + 1 by
        have h16 : u16Max = 65535 := rfl
        omega)]
  rw [hcd]

/-! ## Witnesses -/

/-- Witness for C1 at a concrete spec and query. -/
theorem claim1_witness :
    1 ≤ 2 ∧ 2 ≤ 10 ∧
    ([threeOcc1, threeOcc2].length ≤ min 2 10 ∧
      ∀ o ∈ [threeOcc1, threeOcc2], ∃ t : Int,
        (50 : Int) < t ∧ o = renderOccurrence threeSpec t) :=
  ⟨by decide, by decide,
    claim1_after_strictly_after threeSpec 50 2 10 [threeOcc1, threeOcc2]
      (by decide) (by decide) (by rfl)⟩

/-- Witness for the amended C2 at a concrete spec and window. -/
theorem claim2_witness :
    (0 : Int) ≤ 100 ∧ 1 ≤ 5 ∧ 5 ≤ 65534 ∧
    ((expand epochSpec (ExpandQuery.between 0 100) 5 =
        Except.error (CoreError.limitExceeded 5) ↔
      5 < ((buildSet epochSpec).betweenWindow 0 100).length) ∧
     (((buildSet epochSpec).betweenWindow 0 100).length ≤ 5 →
      expand epochSpec (ExpandQuery.between 0 100) 5 =
        Except.ok (sortOccs (((buildSet epochSpec).betweenWindow 0 100).map
          (renderOccurrence epochSpec))))) :=
  ⟨by decide, by decide, by decide,
    claim2_between_limit epochSpec 0 100 5 (by decide) (by decide) (by decide)⟩

/-- Witness for C3 at a concrete spec and occurrence. -/
theorem claim3_witness :
    ∃ t : Int, epochOcc = renderOccurrence epochSpec t ∧
      (explain epochSpec t).included = true ∧
      (explain epochSpec t).generated_by = some epochOcc.source ∧
      (explain epochSpec t).generated_rule_index = some epochOcc.rule_index :=
  claim3_expand_explain_agree epochSpec ExpandQuery.unbounded 5 [epochOcc]
    (by rfl) epochOcc (by simp)

/-- Witness for C4 at a concrete spec. -/
theorem claim4_witness :
    ∃ dates : List Int,
      collect_dates (buildSet epochSpec) ExpandQuery.unbounded 5 =
        Except.ok dates ∧
      dates.Nodup ∧
      [epochOcc] = sortOccs (dates.map (renderOccurrence epochSpec)) ∧
      ∀ t ∈ dates,
        (t ∈ epochSpec.rdates →
          (renderOccurrence epochSpec t).source = OccurrenceSource.rdate ∧
          ∃ i, rdate_index epochSpec.rdates t = some i ∧
            (renderOccurrence epochSpec t).rule_index = i ∧
            epochSpec.rdates[i]? = some t) ∧
        (t ∉ epochSpec.rdates →
          (renderOccurrence epochSpec t).source = OccurrenceSource.rrule ∧
          (renderOccurrence epochSpec t).rule_index =
            ((epochSpec.rrules.findIdx? fun rule =>
              matches_rule_at epochSpec.dtstart rule t).getD 0)) :=
  claim4_source_attribution epochSpec ExpandQuery.unbounded 5 [epochOcc] (by rfl)

/-- Witness for the amended C5 at a concrete occurrence inside the fold. -/
theorem claim5_witness :
    ∃ t : Int,
      foldOcc1.start_utc = formatSecs t ++ "Z" ∧
      foldOcc1.start_local = formatSecs (foldSpec.tzZone.localOf t) ∧
      t ∈ foldSpec.tzZone.localCandidates (foldSpec.tzZone.localOf t) ∧
      ∀ u : Int, foldSpec.tzZone.localCandidates (foldSpec.tzZone.localOf t) = [u] →
        u = t :=
  claim5_local_utc_round_trip foldSpec ExpandQuery.unbounded 10
    [foldOcc1, foldOcc2] (by rfl) foldOcc1 (by simp)

/-- Witness for C7 at a concrete spec and query. -/
theorem claim7_witness :
    [threeOcc1, threeOcc2].Pairwise fun o1 o2 =>
      strLt o1.start_utc o2.start_utc ∨
        (o1.start_utc = o2.start_utc ∧
          (strLt o1.start_local o2.start_local ∨
            (o1.start_local = o2.start_local ∧
              o1.rule_index ≤ o2.rule_index))) :=
  claim7_sorted_output threeSpec (ExpandQuery.after 50 2) 10
    [threeOcc1, threeOcc2] (by rfl)

/-- Witness for C8 at two concrete inputs: a format mismatch and a
DST-ambiguous local time. -/
theorem claim8_witness :
    parse_iso_datetime "garbage" utcTz =
        Except.error (CoreError.invalidDateTime "garbage"
          "expected YYYY-MM-DD, YYYY-MM-DDTHH:MM:SS, or RFC3339") ∧
    parse_iso_datetime "2026-10-25T02:30:00" berlin2026 =
        Except.error (CoreError.invalidDateTime "2026-10-25T02:30:00"
          "ambiguous or invalid local time in timezone") :=
  ⟨(claim8_parse_iso_rejects "garbage" utcTz).1 (by rfl) (by rfl) (by rfl),
   (claim8_parse_iso_rejects "2026-10-25T02:30:00" berlin2026).2.1 1792895400
     (by rfl) (by rfl) (by rfl) (by decide)⟩

/-- Witness for C10: the ceiling hits at 65535 while 65534 still works. -/
theorem claim10_witness :
    65535 ≤ 65535 ∧
    expand epochSpec ExpandQuery.unbounded 65535 =
      Except.error (CoreError.limitExceeded 65535) ∧
    expand epochSpec ExpandQuery.unbounded 65534 = Except.ok [epochOcc] :=
  ⟨by decide,
    claim10_u16_ceiling epochSpec ExpandQuery.unbounded 65535 (by decide),
    by rfl⟩

end Rrulex
